import Mathlib

/-!
Verification of the label-highlighter history core.

Shallow embedding of the roulette-number-tracker core (the superseding
componentized `MobileDashboard` variant: `handleAdd`, `handleAddNumber`,
`handleUndo`, reset, `top9Numbers`, and the `useLocalStorage` hook's
`setValue`/initial load), together with proofs of the specification's
testable properties.

Modelling conventions:
* JavaScript numbers produced by `parseInt` are modelled as exact integers
  (`ℤ`); within the guarded range `[0, 36]` every double is exact, and any
  digit-string value above 36 rounds to a double that is still above 36,
  so the guard branches agree with the exact model.
* `parseFloat` is modelled as an exact rational (`ℚ`); `none` stands for a
  non-finite result (`NaN`, and the unreachable-in-context `Infinity`),
  which compares `!==` to every integer.
* `localStorage` is modelled by the decoded array it holds
  (`Option (List ℤ)`, `none` = key absent); JSON round-trip on an array of
  integers is lossless, and the serialized snapshot is `jsonEncode` of the
  held array.
-/

namespace LabelHighlighter

/-- ECMAScript whitespace accepted by `parseInt`/`parseFloat` (ASCII part:
space, tab, line feed, carriage return, vertical tab, form feed). -/
def isJsWs (c : Char) : Bool :=
  c = ' ' || c = '\t' || c = '\n' || c = '\r' || c.toNat = 11 || c.toNat = 12

/-- Drop leading JS whitespace. -/
def skipWs : List Char → List Char
  | [] => []
  | c :: cs => if isJsWs c then skipWs cs else c :: cs

/-- Decimal digit value of a character, if it is one. -/
def decDigit? (c : Char) : Option ℕ :=
  if '0' ≤ c ∧ c ≤ '9' then some (c.toNat - '0'.toNat) else none

/-- Hexadecimal digit value of a character, if it is one. -/
def hexDigit? (c : Char) : Option ℕ :=
  if '0' ≤ c ∧ c ≤ '9' then some (c.toNat - '0'.toNat)
  else if 'a' ≤ c ∧ c ≤ 'f' then some (c.toNat - 'a'.toNat + 10)
  else if 'A' ≤ c ∧ c ≤ 'F' then some (c.toNat - 'A'.toNat + 10)
  else none

/-- Longest leading run of digits (values) and the remaining characters. -/
def digitRun (dig : Char → Option ℕ) : List Char → List ℕ × List Char
  | [] => ([], [])
  | c :: cs =>
    match dig c with
    | some d =>
      let p := digitRun dig cs
      (d :: p.1, p.2)
    | none => ([], c :: cs)

/-- Value of a digit sequence in the given base, most significant first. -/
def digitsVal (base : ℕ) (ds : List ℕ) : ℕ :=
  ds.foldl (fun a d => a * base + d) 0

/-- Optional leading sign; returns the sign as ±1 and the rest. -/
def readSign : List Char → ℤ × List Char
  | '-' :: cs => (-1, cs)
  | '+' :: cs => (1, cs)
  | cs => (1, cs)

/-- Model of JavaScript `parseInt(s)` (radix argument omitted, as in the
source): skip whitespace, optional sign, optional `0x`/`0X` hex prefix,
then the longest run of digits; `none` models `NaN` (no digits). -/
def parseIntJS (s : String) : Option ℤ :=
  let cs := skipWs s.data
  let sg := readSign cs
  let bs : ℕ × List Char :=
    match sg.2 with
    | '0' :: 'x' :: rest => (16, rest)
    | '0' :: 'X' :: rest => (16, rest)
    | other => (10, other)
  let dig := if bs.1 = 16 then hexDigit? else decDigit?
  match digitRun dig bs.2 with
  | ([], _) => none
  | (ds, _) => some (sg.1 * (digitsVal bs.1 ds : ℤ))

/-- Exponent part of a decimal literal: optional sign then digits; an `e`
not followed by digits contributes exponent 0 (it is not consumed as part
of the literal). -/
def readExp (cs : List Char) : ℤ :=
  let sg := readSign cs
  match digitRun decDigit? sg.2 with
  | ([], _) => 0
  | (ds, _) => sg.1 * (digitsVal 10 ds : ℤ)

/-- Exact rational value of a decimal literal `sgn · ip.fp · 10 ^ ex`,
built from the digit lists; written as one `mkRat` over integer
arithmetic. -/
def decLiteralVal (sgn : ℤ) (ip fp : List ℕ) (ex : ℤ) : ℚ :=
  let base : ℤ := sgn * ((digitsVal 10 ip * 10 ^ fp.length + digitsVal 10 fp : ℕ) : ℤ)
  if 0 ≤ ex then mkRat (base * 10 ^ ex.toNat) (10 ^ fp.length)
  else mkRat base (10 ^ (fp.length + (-ex).toNat))

/-- Model of JavaScript `parseFloat(s)`: longest prefix that is a decimal
literal `[sign] digits [. digits] [e [sign] digits]`, as an exact rational.
`none` models a non-finite result (`NaN` when no digits are found; the
`Infinity` literal also yields `none`, and like `NaN` it compares `!==` to
every integer, which is the only use the program makes of the value). -/
def parseFloatJS (s : String) : Option ℚ :=
  let cs := skipWs s.data
  let sg := readSign cs
  let ipr := digitRun decDigit? sg.2
  let fpr : List ℕ × List Char :=
    match ipr.2 with
    | '.' :: rest => digitRun decDigit? rest
    | other => ([], other)
  if ipr.1 = [] ∧ fpr.1 = [] then none
  else
    let ex : ℤ :=
      match fpr.2 with
      | 'e' :: rest => readExp rest
      | 'E' :: rest => readExp rest
      | _ => 0
    some (decLiteralVal sg.1 ipr.1 fpr.1 ex)

/-- JavaScript `x !== num` where `x` is the `parseFloat` result (`none` =
non-finite, which is `!==` every integer) and `num` the `parseInt` value. -/
def jsNe (q : Option ℚ) (n : ℤ) : Bool :=
  match q with
  | none => true
  | some x => decide (x ≠ (n : ℚ))

/-- History cap of the superseding variant: `.slice(0, 30)` in `handleAdd`
and `handleAddNumber` ("keep only last 30 entries"). -/
def MAX_HISTORY : ℕ := 30

/-- Model of `JSON.stringify` on an array of integers, e.g. `[5,12,5]` or `[]`. -/
def jsonEncode (l : List ℤ) : String :=
  "[" ++ String.intercalate "," (l.map toString) ++ "]"

/-- Client state relevant to the claims: the `history` React state, the
controlled `inputValue`, whether the input field was just refocused, and
the content of `localStorage` under the `roulette-history` key
(`none` = absent; held as the decoded array, its serialized snapshot being
`jsonEncode` of it). -/
structure AppState where
  history : List ℤ
  inputValue : String
  focused : Bool
  stored : Option (List ℤ)
deriving DecidableEq

/-- Model of `window.localStorage.setItem(key, JSON.stringify(v))`: may throw
(storage unavailable / quota exceeded), modelled by the `ok` flag; on
success the store holds the value. -/
def setItemJSON (ok : Bool) (v : List ℤ) : Except String (Option (List ℤ)) :=
  if ok then Except.ok (some v) else Except.error "QuotaExceededError"

/-- The `setValue` of `useLocalStorage`: inside `try`, the React state is set
first, then the storage write is attempted; a thrown write error is caught
(`catch { console.log(error) }`) and swallowed, so the function is total
and the already-applied in-memory update survives. -/
def setValue (ok : Bool) (v : List ℤ) (st : AppState) : AppState :=
  let st1 := { st with history := v }
  match setItemJSON ok v with
  | Except.ok s => { st1 with stored := s }
  | Except.error _ => st1

/-- Text submission, `handleAdd`: parse the input, reject `NaN`/out-of-range, reject
non-whole numbers, else prepend and truncate to 30, persist, clear the
input and refocus it. Rejections `alert` and return with state unchanged. -/
def handleAdd (ok : Bool) (st : AppState) : AppState :=
  match parseIntJS st.inputValue with
  | none => st
  | some num =>
    if num < 0 ∨ 36 < num then st
    else if jsNe (parseFloatJS st.inputValue) num then st
    else
      let st1 := setValue ok ((num :: st.history).take 30) st
      { st1 with inputValue := "", focused := true }

/-- The pure history effect of a grid tap (`handleAddNumber`): reject
values outside `[0, 36]`, else prepend and truncate to 30. -/
def handleAddNumber (num : ℤ) (history : List ℤ) : List ℤ :=
  if num < 0 ∨ 36 < num then history else (num :: history).take 30

/-- Grid tap `handleAddNumber` on the full state, with its persistence write. -/
def handleAddNumberState (ok : Bool) (num : ℤ) (st : AppState) : AppState :=
  if num < 0 ∨ 36 < num then st
  else setValue ok ((num :: st.history).take 30) st

/-- The pure history effect of `handleUndo`: drop the first entry
(`history.slice(1)`) when the history is non-empty, else do nothing. -/
def handleUndo (history : List ℤ) : List ℤ :=
  if 0 < history.length then history.drop 1 else history

/-- Undo, `handleUndo`, on the full state, with its persistence write. -/
def handleUndoState (ok : Bool) (st : AppState) : AppState :=
  if 0 < st.history.length then setValue ok (st.history.drop 1) st else st

/-- The confirmed reset button: `setHistory([])`. -/
def resetOp (ok : Bool) (st : AppState) : AppState :=
  setValue ok [] st

/-- Highlight projection `top9Numbers = new Set(history.slice(0, 9))`: the distinct values among
the first nine history entries, driving the grid highlight. -/
def top9Numbers (history : List ℤ) : Finset ℤ :=
  (history.take 9).toFinset

/-- The state `useLocalStorage` yields at mount: the decoded stored array
if the key is present, else the initial value `[]`; input empty. -/
def initialLoad (stored : Option (List ℤ)) : AppState :=
  { history := stored.getD [], inputValue := "", focused := false, stored := stored }

/-- The spec's validator outcomes (§4.3). The code reports `NotANumber` and
`OutOfRange` through one combined guard `isNaN(num) || num < 0 || num > 36`;
the reason labels name which disjunct fired. -/
inductive ValidateResult where
  | validInteger (n : ℤ)
  | notANumber
  | notAWholeNumber
  | outOfRange
deriving DecidableEq

/-- The validation performed by `handleAdd`, branch for branch:
`parseInt` then the `isNaN`/range guard, then the `parseFloat !== num`
whole-number guard. -/
def validate (s : String) : ValidateResult :=
  match parseIntJS s with
  | none => ValidateResult.notANumber
  | some num =>
    if num < 0 ∨ 36 < num then ValidateResult.outOfRange
    else if jsNe (parseFloatJS s) num then ValidateResult.notAWholeNumber
    else ValidateResult.validInteger num

/-- The states a session can reach: fresh start or restart from a
persisted snapshot, the user retyping the input box, and the four
mutating handlers, each with either write outcome. -/
inductive Reachable : AppState → Prop where
  | start : Reachable (initialLoad none)
  | restart {st} : Reachable st → Reachable (initialLoad st.stored)
  | typing {st} (s : String) : Reachable st → Reachable { st with inputValue := s }
  | submit {st} (ok : Bool) : Reachable st → Reachable (handleAdd ok st)
  | tap {st} (ok : Bool) (v : ℤ) : Reachable st → Reachable (handleAddNumberState ok v st)
  | undo {st} (ok : Bool) : Reachable st → Reachable (handleUndoState ok st)
  | reset {st} (ok : Bool) : Reachable st → Reachable (resetOp ok st)

/-- The spec's History invariants: length at most 30 and every element in
`[0, 36]`. -/
def HistOK (l : List ℤ) : Prop :=
  l.length ≤ 30 ∧ ∀ x ∈ l, 0 ≤ x ∧ x ≤ 36

/-- Invariant on the whole state: the in-memory history and whatever the
store holds both satisfy `HistOK`. -/
def InvOK (st : AppState) : Prop :=
  HistOK st.history ∧ ∀ l, st.stored = some l → HistOK l

/-! Helper lemmas. -/

/-- A guard of the form `¬(v < 0 ∨ 36 < v)` from a range assumption. -/
theorem range_guard {v : ℤ} (hv : 0 ≤ v ∧ v ≤ 36) : ¬(v < 0 ∨ 36 < v) := by
  push_neg
  exact hv

/-- Taking `n` elements of a cons, for positive `n`. -/
theorem take_cons_pos {α : Type} (a : α) (l : List α) {n : ℕ} (hn : 0 < n) :
    (a :: l).take n = a :: l.take (n - 1) := by
  cases n with
  | zero => omega
  | succ m => rfl

/-- On valid input, `handleAddNumber` is prepend-then-truncate. -/
theorem handleAddNumber_of_valid {v : ℤ} (hv : 0 ≤ v ∧ v ≤ 36) (h : List ℤ) :
    handleAddNumber v h = (v :: h).take 30 := by
  rw [handleAddNumber, if_neg (range_guard hv)]

/-- The in-memory update of `setValue` always lands, whatever the write
outcome. -/
theorem setValue_history (ok : Bool) (v : List ℤ) (st : AppState) :
    (setValue ok v st).history = v := by
  cases ok <;> rfl

/-- On a successful write the store holds the new value. -/
theorem setValue_stored_ok (v : List ℤ) (st : AppState) :
    (setValue true v st).stored = some v := rfl

/-- On a failed write the store keeps its previous content. -/
theorem setValue_stored_err (v : List ℤ) (st : AppState) :
    (setValue false v st).stored = st.stored := rfl

/-- Correspondence of `handleAdd` with `validate`, branch for branch: on the
accepting branch it persists the prepended-truncated history and clears
and refocuses the input; on every rejecting branch it returns the state
untouched. -/
theorem handleAdd_eq (ok : Bool) (st : AppState) :
    handleAdd ok st =
      match validate st.inputValue with
      | ValidateResult.validInteger n =>
        { setValue ok ((n :: st.history).take 30) st with
            inputValue := "", focused := true }
      | _ => st := by
  unfold handleAdd validate
  cases hp : parseIntJS st.inputValue with
  | none => rfl
  | some num =>
    by_cases hc : num < 0 ∨ 36 < num
    · simp [hc]
    · by_cases hne : jsNe (parseFloatJS st.inputValue) num
      · simp [hc, hne]
      · simp [hc, hne]

/-- Reduction of `validate` once `parseInt` is known to succeed. -/
theorem validate_some {s : String} {n : ℤ} (h : parseIntJS s = some n) :
    validate s = if n < 0 ∨ 36 < n then ValidateResult.outOfRange
      else if jsNe (parseFloatJS s) n = true then ValidateResult.notAWholeNumber
      else ValidateResult.validInteger n := by
  unfold validate
  rw [h]

/-! Claim theorems. -/

/-- C1: adding a valid value `v ∈ [0, 36]` to a history below the cap
yields a history one longer whose head is `v` and whose tail is the old
history unchanged; adding to a history at the cap (30, the single constant
the modelled variant holds) keeps length 30, head `v`, and tail equal to
the first 29 old entries — the oldest entry is dropped. -/
theorem c1_add_shape (v : ℤ) (h : List ℤ) (hv : 0 ≤ v ∧ v ≤ 36) :
    (h.length < 30 →
      (handleAddNumber v h).length = h.length + 1 ∧
      (handleAddNumber v h).head? = some v ∧
      (handleAddNumber v h).tail = h) ∧
    (h.length = 30 →
      (handleAddNumber v h).length = 30 ∧
      (handleAddNumber v h).head? = some v ∧
      (handleAddNumber v h).tail = h.take 29) := by
  rw [handleAddNumber_of_valid hv]
  constructor
  · intro hlen
    rw [List.take_of_length_le (by simp only [List.length_cons]; omega)]
    exact ⟨by simp, rfl, rfl⟩
  · intro hlen
    rw [take_cons_pos v h (by norm_num)]
    norm_num [List.length_take, hlen]

/-- Witness for C1 at `v = 5`, `h = [3]`. -/
theorem c1_witness :
    (handleAddNumber 5 [3]).length = [3].length + 1 ∧
    (handleAddNumber 5 [3]).head? = some 5 ∧
    (handleAddNumber 5 [3]).tail = [3] :=
  (c1_add_shape 5 [3] (by decide)).1 (by decide)

/-- C4: the spec's validator test vectors, checked against the embedded
`handleAdd` validation ("7", "0", "36" accepted with the parsed value;
"37" out of range; "3.5" not a whole number; "abc" not a number). -/
theorem c4_vectors :
    validate "7" = ValidateResult.validInteger 7 ∧
    validate "0" = ValidateResult.validInteger 0 ∧
    validate "36" = ValidateResult.validInteger 36 ∧
    validate "37" = ValidateResult.outOfRange ∧
    validate "3.5" = ValidateResult.notAWholeNumber ∧
    validate "abc" = ValidateResult.notANumber := by
  decide

/-- C5: the highlight projection (a total function, hence pure and
deterministic) returns a set of at most `min 9 (len h)` elements whose
members are exactly the values occurring among the first
`min 9 (len h)` entries of the history (`h.take 9`). -/
theorem c5_project (h : List ℤ) :
    (top9Numbers h).card ≤ min 9 h.length ∧
    ∀ x : ℤ, x ∈ top9Numbers h ↔ x ∈ h.take 9 := by
  constructor
  · have h1 : (h.take 9).toFinset.card ≤ (h.take 9).length := (h.take 9).toFinset_card_le
    simpa [top9Numbers, List.length_take] using h1
  · intro x
    simp [top9Numbers]

/-- C6: undo is a left inverse of add below the cap — for `v ∈ [0, 36]`
and `len h < 30`, `handleUndo (handleAddNumber v h) = h` — and undo on the
empty history is a no-op (and, being a total function, never errors). -/
theorem c6_undo_laws (h : List ℤ) (v : ℤ) (hlen : h.length < 30)
    (hv : 0 ≤ v ∧ v ≤ 36) :
    handleUndo (handleAddNumber v h) = h ∧ handleUndo ([] : List ℤ) = [] := by
  refine ⟨?_, rfl⟩
  rw [handleAddNumber_of_valid hv,
    List.take_of_length_le (by simp only [List.length_cons]; omega)]
  simp [handleUndo]

/-- Witness for C6 at `h = [3]`, `v = 5`. -/
theorem c6_witness :
    handleUndo (handleAddNumber 5 [3]) = [3] ∧ handleUndo ([] : List ℤ) = [] :=
  c6_undo_laws [3] 5 (by decide) (by decide)

/-- C3, counterexample: the claim says an input with a non-zero fractional
part is rejected as `NotAWholeNumber` even when it also lies outside
`[0, 36]`, naming "40.5". The code checks the range of the `parseInt`
value before the whole-number test, so "40.5" is rejected as `OutOfRange`
instead. -/
theorem c3_counterexample :
    validate "40.5" = ValidateResult.outOfRange ∧
    validate "40.5" ≠ ValidateResult.notAWholeNumber := by
  decide

/-- C3, amended: the rules are applied in the order `NotANumber`, then
`OutOfRange`, then `NotAWholeNumber` — an input that parses with a
fractional part (`parseFloat ≠ parseInt`) is rejected as
`NotAWholeNumber` exactly when its `parseInt` value lies inside `[0, 36]`,
and as `OutOfRange` otherwise. -/
theorem c3_amended (s : String) (n : ℤ) (q : ℚ)
    (h1 : parseIntJS s = some n) (h2 : parseFloatJS s = some q)
    (h3 : q ≠ (n : ℚ)) :
    validate s = if n < 0 ∨ 36 < n then ValidateResult.outOfRange
      else ValidateResult.notAWholeNumber := by
  rw [validate_some h1]
  by_cases hc : n < 0 ∨ 36 < n
  · rw [if_pos hc, if_pos hc]
  · rw [if_neg hc, if_neg hc]
    have hne : jsNe (parseFloatJS s) n = true := by
      rw [h2]
      simp [jsNe, h3]
    rw [hne]
    simp

/-- Witness for C3 (amended) at "12.5", in range with fractional part. -/
theorem c3_witness :
    validate "12.5" = if (12 : ℤ) < 0 ∨ 36 < (12 : ℤ) then ValidateResult.outOfRange
      else ValidateResult.notAWholeNumber :=
  c3_amended "12.5" 12 (mkRat 25 2) (by decide) (by decide) (by decide)

/-- C7: when text submission is rejected (`NotANumber`, `NotAWholeNumber`
or `OutOfRange`), the whole state — in particular the history and the
pending input text — is unchanged; when it succeeds, the pending text is
cleared, the input refocused, and the value prepended (with truncation)
to the history. -/
theorem c7_frame (st : AppState) (ok : Bool) :
    ((validate st.inputValue = ValidateResult.notANumber ∨
      validate st.inputValue = ValidateResult.notAWholeNumber ∨
      validate st.inputValue = ValidateResult.outOfRange) →
      handleAdd ok st = st) ∧
    (∀ n, validate st.inputValue = ValidateResult.validInteger n →
      (handleAdd ok st).inputValue = "" ∧
      (handleAdd ok st).focused = true ∧
      (handleAdd ok st).history = (n :: st.history).take 30) := by
  rw [handleAdd_eq]
  constructor
  · rintro (h | h | h) <;> rw [h]
  · intro n hv
    rw [hv]
    exact ⟨rfl, rfl, setValue_history ok _ st⟩

/-- Witness for C7: rejection at input "abc", success at input "7". -/
theorem c7_witness :
    handleAdd true ⟨[3], "abc", false, none⟩ = ⟨[3], "abc", false, none⟩ ∧
    ((handleAdd true ⟨[3], "7", false, none⟩).inputValue = "" ∧
     (handleAdd true ⟨[3], "7", false, none⟩).focused = true ∧
     (handleAdd true ⟨[3], "7", false, none⟩).history = ((7 : ℤ) :: [3]).take 30) :=
  ⟨(c7_frame ⟨[3], "abc", false, none⟩ true).1 (Or.inl (by decide)),
   (c7_frame ⟨[3], "7", false, none⟩ true).2 7 (by decide)⟩

/-- C10: submission is lenient — any input string whose `parseInt` and
`parseFloat` results agree on the same integer `n ∈ [0, 36]` (such as
"7abc") is accepted, and `n` is prepended to the history, rather than the
input being rejected as `NotANumber`. (`parseFloat` is modelled as an
exact rational.) -/
theorem c10_lenient_accept (s : String) (n : ℤ) (st : AppState) (ok : Bool)
    (h1 : parseIntJS s = some n) (h2 : parseFloatJS s = some (n : ℚ))
    (h3 : 0 ≤ n) (h4 : n ≤ 36) :
    validate s = ValidateResult.validInteger n ∧
    (handleAdd ok { st with inputValue := s }).history = (n :: st.history).take 30 := by
  have hv : validate s = ValidateResult.validInteger n := by
    rw [validate_some h1, if_neg (range_guard ⟨h3, h4⟩)]
    have hne : jsNe (parseFloatJS s) n = false := by
      rw [h2]
      simp [jsNe]
    rw [hne]
    simp
  refine ⟨hv, ?_⟩
  rw [handleAdd_eq]
  rw [show ({ st with inputValue := s } : AppState).inputValue = s from rfl, hv]
  exact setValue_history ok _ _

/-- Witness for C10 at "7abc" over the empty history. -/
theorem c10_witness :
    validate "7abc" = ValidateResult.validInteger 7 ∧
    (handleAdd true { (⟨[], "", false, none⟩ : AppState) with
        inputValue := "7abc" }).history = ((7 : ℤ) :: ([] : List ℤ)).take 30 :=
  c10_lenient_accept "7abc" 7 ⟨[], "", false, none⟩ true
    (by decide) (by decide) (by decide) (by decide)

/-! The history invariant (C2). -/

theorem histOK_nil : HistOK [] := by
  simp [HistOK]

theorem histOK_add {l : List ℤ} {v : ℤ} (hl : HistOK l) (hv : 0 ≤ v ∧ v ≤ 36) :
    HistOK ((v :: l).take 30) := by
  constructor
  · simp [List.length_take]
  · intro x hx
    rcases List.mem_cons.mp (List.take_subset 30 _ hx) with rfl | hmem
    · exact hv
    · exact hl.2 x hmem

theorem histOK_drop {l : List ℤ} (hl : HistOK l) : HistOK (l.drop 1) := by
  constructor
  · have := hl.1
    simp only [List.length_drop]
    omega
  · intro x hx
    exact hl.2 x (List.drop_subset 1 l hx)

theorem invOK_setValue (ok : Bool) {st : AppState} (hs : InvOK st)
    {v : List ℤ} (hv : HistOK v) : InvOK (setValue ok v st) := by
  cases ok with
  | false => exact ⟨hv, fun l hl => hs.2 l hl⟩
  | true =>
    refine ⟨hv, fun l hl => ?_⟩
    rw [← Option.some.inj hl]
    exact hv

theorem invOK_initialLoad {st : AppState} (hs : InvOK st) :
    InvOK (initialLoad st.stored) := by
  refine ⟨?_, fun l hl => hs.2 l hl⟩
  cases h : st.stored with
  | none => simpa [initialLoad, h] using histOK_nil
  | some l => simpa [initialLoad, h] using hs.2 l h

/-- An accepted text value is in range: the very guard that admitted it. -/
theorem validate_valid_range {s : String} {n : ℤ}
    (h : validate s = ValidateResult.validInteger n) : 0 ≤ n ∧ n ≤ 36 := by
  unfold validate at h
  cases hp : parseIntJS s with
  | none =>
    rw [hp] at h
    exact absurd h (by simp)
  | some num =>
    rw [hp] at h
    by_cases hc : num < 0 ∨ 36 < num
    · simp [hc] at h
    · by_cases hne : jsNe (parseFloatJS s) num = true
      · simp [hc, hne] at h
      · simp [hc, hne] at h
        push_neg at hc
        rw [← h]
        exact hc

theorem invOK_handleAdd (ok : Bool) {st : AppState} (hs : InvOK st) :
    InvOK (handleAdd ok st) := by
  rw [handleAdd_eq]
  cases hv : validate st.inputValue with
  | validInteger n =>
    have h1 : InvOK (setValue ok ((n :: st.history).take 30) st) :=
      invOK_setValue ok hs (histOK_add hs.1 (validate_valid_range hv))
    exact ⟨h1.1, h1.2⟩
  | notANumber => exact hs
  | notAWholeNumber => exact hs
  | outOfRange => exact hs

theorem invOK_tap (ok : Bool) (v : ℤ) {st : AppState} (hs : InvOK st) :
    InvOK (handleAddNumberState ok v st) := by
  unfold handleAddNumberState
  by_cases hc : v < 0 ∨ 36 < v
  · rw [if_pos hc]
    exact hs
  · rw [if_neg hc]
    push_neg at hc
    exact invOK_setValue ok hs (histOK_add hs.1 hc)

theorem invOK_undo (ok : Bool) {st : AppState} (hs : InvOK st) :
    InvOK (handleUndoState ok st) := by
  unfold handleUndoState
  by_cases hc : 0 < st.history.length
  · rw [if_pos hc]
    exact invOK_setValue ok hs (histOK_drop hs.1)
  · rw [if_neg hc]
    exact hs

theorem invOK_reachable {st : AppState} (h : Reachable st) : InvOK st := by
  induction h with
  | start => exact ⟨histOK_nil, fun l hl => Option.noConfusion hl⟩
  | restart _ ih => exact invOK_initialLoad ih
  | typing s _ ih => exact ⟨ih.1, ih.2⟩
  | submit ok _ ih => exact invOK_handleAdd ok ih
  | tap ok v _ ih => exact invOK_tap ok v ih
  | undo ok _ ih => exact invOK_undo ok ih
  | reset ok _ ih => exact invOK_setValue ok ih histOK_nil

/-- C2: every reachable state — created empty at start or restored from
the store, then mutated only by add (text or grid tap), undo and reset,
with either write outcome at each step — has a history of length at most
`MAX_HISTORY` (30, the constant the modelled variant holds) all of whose
elements lie in `[0, 36]`. -/
theorem c2_invariant (st : AppState) (h : Reachable st) :
    st.history.length ≤ MAX_HISTORY ∧ ∀ x ∈ st.history, 0 ≤ x ∧ x ≤ 36 :=
  ⟨(invOK_reachable h).1.1, (invOK_reachable h).1.2⟩

/-- Witness for C2: the state after tapping 5 from a fresh start. -/
theorem c2_witness :
    (handleAddNumberState true 5 (initialLoad none)).history.length ≤ MAX_HISTORY ∧
    ∀ x ∈ (handleAddNumberState true 5 (initialLoad none)).history, 0 ≤ x ∧ x ≤ 36 :=
  c2_invariant _ (Reachable.tap true 5 Reachable.start)

/-- C8: from any prior state, the confirmed reset yields the empty
history (whatever the write outcome), and — the write going through, the
failing case being C9's best-effort concern — a persisted snapshot equal
to the JSON serialization of an empty array, `"[]"`. -/
theorem c8_reset (st : AppState) :
    (∀ ok, (resetOp ok st).history = []) ∧
    (resetOp true st).stored.map jsonEncode = some "[]" := by
  refine ⟨fun ok => setValue_history ok [] st, ?_⟩
  show Option.map jsonEncode (some ([] : List ℤ)) = some "[]"
  decide

/-- C9: the persistence write is best-effort. `setValue` — the single
write path used by add, undo and reset — is a total function (the thrown
storage error is caught and swallowed, never propagated), and on a failed
write the in-memory history still equals the newly mutated value while the
store keeps its previous content; the same holds through each mutating
handler. -/
theorem c9_best_effort (v : List ℤ) (num : ℤ) (st : AppState) :
    ((setValue false v st).history = v ∧ (setValue false v st).stored = st.stored) ∧
    (handleAddNumberState false num st).stored = st.stored ∧
    (handleUndoState false st).stored = st.stored ∧
    (resetOp false st).stored = st.stored := by
  refine ⟨⟨rfl, rfl⟩, ?_, ?_, rfl⟩
  · unfold handleAddNumberState
    by_cases hc : num < 0 ∨ 36 < num
    · rw [if_pos hc]
    · rw [if_neg hc]
      rfl
  · unfold handleUndoState
    by_cases hc : 0 < st.history.length
    · rw [if_pos hc]
      rfl
    · rw [if_neg hc]

end LabelHighlighter
